import Mathlib

/-!
Shallow embedding of the DataBridge repository's classification and
ingestion core, and proofs of the frozen claims about it.

Sources embedded:
  * `src/data_bridge.py` — `_is_us_market_hours`, the per-ticker price
    selection of `bloomberg_quotes`, the per-ticker body of
    `economic_calendar`, `_safe_float`, `_parse_date`;
  * `src/clarifi_processor.py` — `normalize_date`, `parse_delimited_file`,
    and the row-processing / idempotence-guard / batch-upsert portions of
    `process_clarifi_file`.

Modelling conventions:
  * Python field dictionaries become association lists `Row`; a key stored
    with value `None` is modelled by the key's absence (every read in the
    embedded code goes through `.get`/truthiness, for which the two are
    indistinguishable).
  * Python floats become `Rat`; `float(...)` on a string is modelled by a
    decimal/exponent parser (`pyFloat`).  The `inf`/`nan`/underscore forms
    accepted by Python are not modelled; no embedded branch depends on them.
  * Calendar dates are `(year, month, day)` triples ordered
    lexicographically, which is exactly `datetime.date` ordering; day
    arithmetic (`timedelta`) goes through the standard civil-from-days /
    days-from-civil conversions.
  * External collaborators (Bloomberg fetches, the Supabase store) are
    parameters: a fetched row is an input `Row`, the single-field
    future-date lookup is an input `Option Value`, the store's per-column
    date query is an input association list, and the upsert call is an
    input function returning `Except String Unit`.
-/

namespace DataBridge

/-- A calendar date `(year, month, day)`.  Python `datetime.date` compares
lexicographically on this triple, which `Date.blt`/`Date.ble` mirror. -/
structure Date where
  year : Int
  month : Nat
  day : Nat
deriving DecidableEq, Repr

/-- Strict `<` of `datetime.date`: lexicographic on (year, month, day). -/
def Date.blt (a b : Date) : Bool :=
  a.year < b.year ||
    (a.year == b.year && (a.month < b.month ||
      (a.month == b.month && a.day < b.day)))

/-- `datetime.date` `<=`. -/
def Date.ble (a b : Date) : Bool :=
  a.blt b || a == b

/-- Gregorian leap year, as `datetime` implements it. -/
def isLeapYear (y : Int) : Bool :=
  y % 4 == 0 && (y % 100 != 0 || y % 400 == 0)

/-- Days in a month, as `datetime` validates constructor arguments. -/
def daysInMonth (y : Int) (m : Nat) : Nat :=
  if m == 2 then (if isLeapYear y then 29 else 28)
  else if m == 4 || m == 6 || m == 9 || m == 11 then 30
  else 31

/-- A date `datetime.date(y, m, d)` would accept. -/
def Date.valid (d : Date) : Bool :=
  1 ≤ d.month && d.month ≤ 12 && 1 ≤ d.day && d.day ≤ daysInMonth d.year d.month

/-- Rata-die count of a civil date (days since 1970-01-01), the standard
days-from-civil conversion used to model `datetime.timedelta` addition. -/
def daysFromCivil (dt : Date) : Int :=
  let y : Int := dt.year - (if dt.month ≤ 2 then 1 else 0)
  let era : Int := (if 0 ≤ y then y else y - 399) / 400
  let yoe : Int := y - era * 400
  let mp : Nat := (dt.month + 9) % 12
  let doy : Int := ((153 * mp + 2) / 5 : Nat) + dt.day - 1
  let doe : Int := yoe * 365 + yoe / 4 - yoe / 100 + doy
  era * 146097 + doe - 719468

/-- Inverse of `daysFromCivil`: the civil date of a day count. -/
def civilFromDays (z0 : Int) : Date :=
  let z : Int := z0 + 719468
  let era : Int := (if 0 ≤ z then z else z - 146096) / 146097
  let doe : Int := z - era * 146097
  let yoe : Int := (doe - doe / 1460 + doe / 36524 - doe / 146096) / 365
  let y : Int := yoe + era * 400
  let doy : Int := doe - (365 * yoe + yoe / 4 - yoe / 100)
  let mp : Int := (5 * doy + 2) / 153
  let d : Int := doy - (153 * mp + 2) / 5 + 1
  let m : Int := if mp < 10 then mp + 3 else mp - 9
  ⟨y + (if m ≤ 2 then 1 else 0), m.toNat, d.toNat⟩

/-- `date + timedelta(days=n)`. -/
def addDays (dt : Date) (n : Int) : Date :=
  civilFromDays (daysFromCivil dt + n)

/-- Two-digit zero padding (`%m`, `%d` of `strftime`). -/
def pad2 (n : Nat) : String :=
  if n < 10 then "0" ++ toString n else toString n

/-- `strftime("%Y-%m-%d")` (years of interest are 1..9999). -/
def formatDate (dt : Date) : String :=
  let y := dt.year.toNat
  (if y < 10 then "000" else if y < 100 then "00"
   else if y < 1000 then "0" else "") ++ toString y
    ++ "-" ++ pad2 dt.month ++ "-" ++ pad2 dt.day

/-- Decimal digits to a number. -/
def digitsToNat (cs : List Char) : Nat :=
  cs.foldl (fun a c => a * 10 + (c.toNat - 48)) 0

/-- Python `str.strip()`: whitespace removed from both ends. -/
def pyStripList (l : List Char) : List Char :=
  ((l.dropWhile Char.isWhitespace).reverse.dropWhile Char.isWhitespace).reverse

/-- `str.strip()` on a string. -/
def pyStrip (s : String) : String :=
  String.mk (pyStripList s.data)

/-- Python `str.lower()` (the embedded inputs are ASCII). -/
def pyLower (s : String) : String :=
  String.mk (s.data.map Char.toLower)

/-- Python `str.split(d)` for a one-character separator (the embedded
code only ever splits on tab, comma and colon). -/
def splitCharList (d : Char) (l : List Char) : List (List Char) :=
  l.foldr
    (fun c acc =>
      match acc with
      | [] => [[c]]
      | cur :: rest => if c == d then [] :: cur :: rest else (c :: cur) :: rest)
    [[]]

/-- `str.split(d)` on a string. -/
def pySplit (d : Char) (s : String) : List String :=
  (splitCharList d s.data).map String.mk

/-- Python `str.replace(quote, "")`: every double-quote removed. -/
def removeQuotes (s : String) : String :=
  String.mk (s.data.filter (fun c => c != '"'))

/-- Python `s[:n]` (the sliced inputs are ASCII, so slicing is by
character). -/
def pyTake (s : String) (n : Nat) : String :=
  String.mk (s.data.take n)

/-- Python `len(s)` for ASCII inputs. -/
def pyLen (s : String) : Nat :=
  s.data.length

/-- `datetime.strptime(s, "%Y%m%d").date()` for the fixed-width 8-digit
form the Bloomberg feed uses: four year digits, two month digits, two day
digits, validated as a real calendar date; anything else raises, which the
callers turn into `none`. -/
def parseYYYYMMDD (s : String) : Option Date :=
  match s.data with
  | [y1, y2, y3, y4, m1, m2, d1, d2] =>
    if (y1.isDigit && y2.isDigit && y3.isDigit && y4.isDigit &&
        m1.isDigit && m2.isDigit && d1.isDigit && d2.isDigit) then
      let dt : Date :=
        ⟨(digitsToNat [y1, y2, y3, y4] : Nat),
          digitsToNat [m1, m2], digitsToNat [d1, d2]⟩
      if dt.valid then some dt else none
    else none
  | _ => none

/-- A field value of a fetched/parsed row: a number, a string, or a
datetime payload (of which the embedded code only ever observes the civil
date, via `.date()` / `strftime`). -/
inductive Value where
  | num (q : Rat)
  | str (s : String)
  | dtv (d : Date)
deriving DecidableEq, Repr

/-- A Python dict of fields, as an association list (first match wins;
the builders below keep keys unique). -/
abbrev Row := List (String × Value)

/-- `row.get(k)` (`None` when absent). -/
def rowGet (r : Row) (k : String) : Option Value :=
  (r.find? (fun p => p.1 == k)).map (fun p => p.2)

/-- `row.get(k, default)`. -/
def rowGetD (r : Row) (k : String) (d : Value) : Value :=
  (rowGet r k).getD d

/-- Python truthiness of a field value. -/
def truthy : Value → Bool
  | .num q => q != 0
  | .str s => s != ""
  | .dtv _ => true

/-- `a or b` over optional field values (Python `or` returns the first
truthy operand). -/
def pyOr (a b : Option Value) : Option Value :=
  match a with
  | some v => if truthy v then some v else b
  | none => b

/-- `dict[k] = v` on an association list: replace in place, else append
(Python dicts keep insertion order). -/
def assocSet {α : Type} (k : String) (v : α) : List (String × α) → List (String × α)
  | [] => [(k, v)]
  | (k2, v2) :: rest =>
    if k2 == k then (k, v) :: rest else (k2, v2) :: assocSet k v rest

/-- Remove a key (used to model storing `None` under a key: absent and
`None`-valued keys are indistinguishable through `.get`). -/
def assocErase {α : Type} (k : String) : List (String × α) → List (String × α)
  | [] => []
  | (k2, v2) :: rest =>
    if k2 == k then rest else (k2, v2) :: assocErase k rest

/-- The rational value of a parsed decimal literal
`[-] intPart . fracPart e exp`: the concatenated digits over the
appropriate power of ten. -/
def decToRat (neg : Bool) (intPart fracPart : List Char) (exp : Int) : Rat :=
  let total : Nat := digitsToNat (intPart ++ fracPart)
  let num : Int := if neg then -(total : Int) else (total : Int)
  if 0 ≤ exp then mkRat (num * ((10 : Int) ^ exp.toNat)) (10 ^ fracPart.length)
  else mkRat num (10 ^ fracPart.length * 10 ^ (-exp).toNat)

/-- Python `float(s)` on a string: optional sign, decimal digits with an
optional fractional part, optional exponent.  Returns the exact rational
value (IEEE rounding, `inf`/`nan` words and digit underscores are not
modelled; no embedded branch depends on them). -/
def pyFloat (s : String) : Option Rat :=
  let t := pyStripList s.data
  let neg : Bool := match t with
    | '-' :: _ => true
    | _ => false
  let t1 : List Char := match t with
    | '-' :: r => r
    | '+' :: r => r
    | r => r
  let intPart := t1.takeWhile Char.isDigit
  let rest1 := t1.dropWhile Char.isDigit
  let hasDot : Bool := match rest1 with
    | '.' :: _ => true
    | _ => false
  let afterDot : List Char := match rest1 with
    | '.' :: r => r
    | r => r
  let fracPart := if hasDot then afterDot.takeWhile Char.isDigit else []
  let rest2 := if hasDot then afterDot.dropWhile Char.isDigit else rest1
  if intPart.isEmpty && fracPart.isEmpty then none
  else
    match rest2 with
    | [] => some (decToRat neg intPart fracPart 0)
    | e :: r =>
      if e == 'e' || e == 'E' then
        let eneg : Bool := match r with
          | '-' :: _ => true
          | _ => false
        let r1 : List Char := match r with
          | '-' :: rr => rr
          | '+' :: rr => rr
          | rr => rr
        let eds := r1.takeWhile Char.isDigit
        let rest3 := r1.dropWhile Char.isDigit
        if eds.isEmpty || !rest3.isEmpty then none
        else
          some (decToRat neg intPart fracPart
            (if eneg then -(digitsToNat eds : Int) else (digitsToNat eds : Int)))
      else none

/-- Python `int(s)`: optional sign then decimal digits. -/
def pyInt (s : String) : Option Int :=
  let t := pyStripList s.data
  let neg : Bool := match t with
    | '-' :: _ => true
    | _ => false
  let ds : List Char := match t with
    | '-' :: r => r
    | '+' :: r => r
    | r => r
  if !ds.isEmpty && ds.all Char.isDigit then
    some (if neg then -(digitsToNat ds : Int) else (digitsToNat ds : Int))
  else none

/-- `str(value)` on a field value.  A float's exact Python repr is not
reproduced for non-integral rationals; every embedded consumer of a
stringified number only tests the result for colons or re-parses it as a
date shorthand, for which any digit-and-dot rendering behaves alike. -/
def pyStr : Value → String
  | .str s => s
  | .num q => toString q.num ++ (if q.den == 1 then ".0" else "e" ++ toString q.den)
  | .dtv d => formatDate d

/-- `_safe_float` of `data_bridge.py`: `float(value)` with `None` and
failures mapped to `None` (`TypeError` for a datetime payload). -/
def safeFloat : Option Value → Option Rat
  | none => none
  | some (.num q) => some q
  | some (.str s) => pyFloat s
  | some (.dtv _) => none

/-! ## Market hours and quote selection (`data_bridge.py` 212-281) -/

/-- Time of day in microseconds since midnight (the resolution of
`datetime.time`). -/
abbrev TimeOfDay := Nat

/-- `dt_time(9, 30)` in microseconds. -/
def marketOpenUs : Nat := (9 * 3600 + 30 * 60) * 1000000

/-- `dt_time(16, 0)` in microseconds. -/
def marketCloseUs : Nat := 16 * 3600 * 1000000

/-- `_is_us_market_hours`: the US-Eastern civil time of day is given as
`some t` when timezone data is available; `none` models the no-`zoneinfo`
no-`pytz` fallback and the broad `except` (both return `False`). -/
def isUsMarketHours (nowEastern : Option TimeOfDay) : Bool :=
  match nowEastern with
  | none => false
  | some t => marketOpenUs ≤ t && t ≤ marketCloseUs

/-- Per-ticker price resolution of `bloomberg_quotes` (lines 260-278): a
row with an `error` key contributes nothing; otherwise prefer `PX_MID` in
session, `PX_OFFICIAL_CLOSE` out of session, fall back to `PX_LAST`, and
drop the ticker when the chosen value is absent or not float-coercible. -/
def quotePrice (inMarketHours : Bool) (row : Row) : Option Rat :=
  if (rowGet row "error").isSome then none
  else
    let v0 : Option Value := if inMarketHours then rowGet row "PX_MID" else none
    let v1 : Option Value := match v0 with
      | none => if !inMarketHours then rowGet row "PX_OFFICIAL_CLOSE" else none
      | some v => some v
    let v2 : Option Value := match v1 with
      | none => rowGet row "PX_LAST"
      | some v => some v
    safeFloat v2

/-! ## Date normalizer (`clarifi_processor.py` 17-38) -/

/-- The fixed 12-entry month table of `normalize_date`. -/
def monthMap : List (String × Nat) :=
  [("jan", 1), ("feb", 2), ("mar", 3), ("apr", 4), ("may", 5), ("jun", 6),
   ("jul", 7), ("aug", 8), ("sep", 9), ("oct", 10), ("nov", 11), ("dec", 12)]

/-- `month_map.get(abbr)`. -/
def monthLookup (abbr : String) : Option Nat :=
  (monthMap.find? (fun p => p.1 == abbr)).map (fun p => p.2)

/-- The regex `^([A-Za-z]{3})-(\d{2})$` applied to the trimmed input:
three letters, a dash, two digits. -/
def matchMonYY (s : String) : Option (String × Nat) :=
  match s.data with
  | [a, b, c, dash, d1, d2] =>
    if a.isAlpha && b.isAlpha && c.isAlpha && dash == '-' &&
        d1.isDigit && d2.isDigit then
      some (String.mk [a, b, c], digitsToNat [d1, d2])
    else none
  | _ => none

/-- `f"{year}-{month_num:02d}-01"` (years here are 1950..2049). -/
def formatMonthStart (year m : Nat) : String :=
  toString year ++ "-" ++ pad2 m ++ "-01"

/-- `normalize_date` of `clarifi_processor.py`, parameterized by the
general-purpose parser `gp` (the `dateutil` fallback: `gp s` is the
`YYYY-MM-DD` rendering of `dateutil_parser.parse(s)`, `none` on failure
or when `dateutil` is unavailable).  An empty input is falsy and returns
`none` before any parsing. -/
def normalize_date (gp : String → Option String) (s : String) : Option String :=
  if s == "" then none
  else
    match matchMonYY (pyStrip s) with
    | some (mon, yy) =>
      let year : Nat := if yy < 50 then 2000 + yy else 1900 + yy
      match monthLookup (pyLower mon) with
      | some m => some (formatMonthStart year m)
      | none => gp s
    | none => gp s

/-! ## Delimited file parser (`clarifi_processor.py` 41-67) -/

/-- A header cell: `h.strip().lower().replace(quote, "")`. -/
def headerCell (h : String) : String :=
  removeQuotes (pyLower (pyStrip h))

/-- A value cell: `v.strip().replace(quote, "")`. -/
def valueCell (v : String) : String :=
  removeQuotes (pyStrip v)

/-- One cell's stored value: empty becomes `None` (modelled as key
absence), else best-effort `float`, else the trimmed string. -/
def cellValue (value : String) : Option Value :=
  if value == "" then none
  else
    match pyFloat value with
    | some q => some (.num q)
    | none => some (.str value)

/-- The row dict built from headers and cell strings (`row[header] = ...`
for each position; a later duplicate header overwrites the earlier). -/
def mkRow (headers : List String) (values : List String) : Row :=
  (headers.zip values).foldl
    (fun row hv =>
      match cellValue hv.2 with
      | some v => assocSet hv.1 v row
      | none => assocErase hv.1 row)
    []

/-- The loop body of `parse_delimited_file` for one line: skip when empty
after trimming or when the field count differs from the header count. -/
def rowOfLine (headers : List String) (delim : Char) (line : String) : Option Row :=
  let l := pyStrip line
  if l == "" then none
  else
    let values := (pySplit delim l).map valueCell
    if values.length != headers.length then none
    else some (mkRow headers values)

/-- One iteration of the `for line in lines[1:]` loop (`rows.append`). -/
def parseStep (headers : List String) (delim : Char)
    (rows : List Row) (line : String) : List Row :=
  match rowOfLine headers delim line with
  | none => rows
  | some r => rows ++ [r]

/-- `parse_delimited_file` over the file's lines (as `readlines` yields
them): fewer than two lines give no rows; otherwise the first line is the
header and the rest are folded through the loop body. -/
def parse_delimited_file (lines : List String) (delim : Char) : List Row :=
  match lines with
  | [] => []
  | [_] => []
  | header :: rest =>
    let headers := (pySplit delim (pyStrip header)).map headerCell
    rest.foldl (parseStep headers delim) []

/-! ## Row processing, idempotence guard, batching
(`clarifi_processor.py` 166-202) -/

/-- `csv_column -> db_column` pairs, in dict order
(`column_mappings.items()`). -/
abbrev Mapping := List (String × String)

/-- The pre-processing store query result `existing_dates_map`:
`db_column -> dates with a non-null stored value`.  A column the query
failed for has the empty set, which lookup-with-default also yields. -/
abbrev ExistingDates := List (String × List String)

/-- `existing_dates_map.get(c, set())`. -/
def lookupDates (m : ExistingDates) (c : String) : List String :=
  match m.find? (fun p => p.1 == c) with
  | some p => p.2
  | none => []

/-- `has_existing`: some target column of the mapping already stores a
value for this date. -/
def hasExisting (existing : ExistingDates) (mappings : Mapping) (date : String) : Bool :=
  mappings.any (fun p => (lookupDates existing p.2).contains date)

/-- `value is not None and value != ""` (a number or datetime compares
unequal to `""` in Python). -/
def nonEmptyValue : Value → Bool
  | .num _ => true
  | .str s => s != ""
  | .dtv _ => true

/-- `float(value)` under `except (ValueError, TypeError)`. -/
def floatCoerce (v : Value) : Option Rat :=
  safeFloat (some v)

/-- The inner `for csv_column, db_column in column_mappings.items()` loop:
coercible mapped values are written into the date's record, failures are
silently dropped. -/
def applyMappings (mappings : Mapping) (row : Row) (record : Row) : Row :=
  mappings.foldl
    (fun rec1 p =>
      match rowGet row (pyLower p.1) with
      | none => rec1
      | some v =>
        if nonEmptyValue v then
          match floatCoerce v with
          | some q => assocSet p.2 (.num q) rec1
          | none => rec1
        else rec1)
    record

/-- The row's resolved date: the first truthy of `date`/`dates`/`month`,
stringified, normalized, and required truthy (`if not date_str` /
`if not date`). -/
def rowResolvedDate (gp : String → Option String) (row : Row) : Option String :=
  match pyOr (rowGet row "date") (pyOr (rowGet row "dates") (rowGet row "month")) with
  | none => none
  | some v =>
    if truthy v then
      match normalize_date gp (pyStr v) with
      | none => none
      | some date => if date == "" then none else some date
    else none

/-- The per-date record store `records_map` (dict in insertion order);
a record holds the data columns only, the date being its key. -/
abbrev RecordsMap := List (String × Row)

/-- `records_map.get(date)`, defaulting to the fresh `{"date": date}`
record (no data columns). -/
def getRecord (m : RecordsMap) (date : String) : Row :=
  match m.find? (fun p => p.1 == date) with
  | some p => p.2
  | none => []

/-- One iteration of the `for row in rows` loop of
`process_clarifi_file`: resolve the date, skip on no date or on the
idempotence guard, else merge the row's mapped columns into the date's
record. -/
def clarifiStep (gp : String → Option String) (mappings : Mapping)
    (existing : ExistingDates) (recordsMap : RecordsMap) (row : Row) : RecordsMap :=
  match rowResolvedDate gp row with
  | none => recordsMap
  | some date =>
    if hasExisting existing mappings date then recordsMap
    else assocSet date (applyMappings mappings row (getRecord recordsMap date)) recordsMap

/-- The whole row loop. -/
def processRows (gp : String → Option String) (mappings : Mapping)
    (existing : ExistingDates) (rows : List Row) : RecordsMap :=
  rows.foldl (clarifiStep gp mappings existing) []

/-- `records_to_insert`: records whose only key would be `date` are
excluded. -/
def recordsToInsert (gp : String → Option String) (mappings : Mapping)
    (existing : ExistingDates) (rows : List Row) : RecordsMap :=
  (processRows gp mappings existing rows).filter (fun p => !p.2.isEmpty)

/-- The `range(0, len(records_to_insert), 100)` slices. -/
def chunks100 {α : Type} : List α → List (List α)
  | [] => []
  | x :: xs => (x :: xs).take 100 :: chunks100 (xs.drop 99)
termination_by l => l.length
decreasing_by
  simp only [List.length_drop, List.length_cons]
  omega

/-- Structural evaluator for one accumulating pass of the batch
slicing: `k` is the remaining capacity of the current batch `cur`
(stored reversed).  Used only to evaluate `chunks100` on concrete
inputs; `chunks100_eq_run` proves it equal. -/
def chunks100Go {α : Type} (k : Nat) (cur : List α) : List α → List (List α)
  | [] => [cur.reverse]
  | x :: xs =>
    match k with
    | 0 => cur.reverse :: chunks100Go 99 [x] xs
    | k2 + 1 => chunks100Go k2 (x :: cur) xs

/-- Kernel-computable form of `chunks100`. -/
def chunks100Run {α : Type} : List α → List (List α)
  | [] => []
  | x :: xs => chunks100Go 99 [x] xs

deriving instance DecidableEq for Except

/-- One iteration of the upsert loop: a batch adds its length to
`inserted` on success, or appends the exception's text to `errors`. -/
def batchStep (doUpsert : RecordsMap → Except String Unit)
    (acc : Nat × List String) (batch : RecordsMap) : Nat × List String :=
  match doUpsert batch with
  | .ok _ => (acc.1 + batch.length, acc.2)
  | .error e => (acc.1, acc.2 ++ [e])

/-- The whole upsert loop: batch failures are recorded and processing
continues with the next batch. -/
def runBatches (doUpsert : RecordsMap → Except String Unit)
    (records : RecordsMap) : Nat × List String :=
  (chunks100 records).foldl (batchStep doUpsert) (0, [])

/-! ## Economic calendar classifier (`data_bridge.py` 752-1058)

One ticker of the `for ticker, data in reference_data.items()` loop.
External effects become parameters: `data` is the ticker's fetched row,
`futureField` is the outcome of the conditional single-field
`ECO_FUTURE_RELEASE_DATE` lookup (`none` covers the ticker or field being
absent from the response and the lookup raising, all of which leave the
state unchanged), `today` is `datetime.now().date()` and `nowE` is
`datetime.now(ZoneInfo("America/New_York"))` (the `zoneinfo` branch, the
deployment baseline; the `pytz` branch performs the same civil
comparison). -/

/-- An aware Eastern civil instant: date plus microseconds since
midnight.  Ordering is the civil (lexicographic) one, which Python's
comparison of two same-zone aware datetimes realizes outside DST
transition instants (not exercised here). -/
structure CivilDT where
  date : Date
  usec : Nat
deriving DecidableEq, Repr

/-- `<` on civil instants. -/
def CivilDT.blt (a b : CivilDT) : Bool :=
  a.date.blt b.date || (a.date == b.date && a.usec < b.usec)

/-- `_parse_date` of `data_bridge.py`: datetime payloads are formatted
directly; strings of length at least 8 go through `strptime("%Y%m%d")`
on their first 8 characters; everything else (including parse failures)
is `None`. -/
def parseDateField : Option Value → Option String
  | none => none
  | some (.dtv d) => some (formatDate d)
  | some (.str s) =>
    if 8 ≤ pyLen s then (parseYYYYMMDD (pyTake s 8)).map formatDate else none
  | some (.num _) => none

/-- The settled release date (lines 856-866): `ECO_RELEASE_DT`, when
present and truthy, parsed from a datetime payload or via
`strptime(s[:8], "%Y%m%d")`; parse failures and non-datetime non-string
payloads leave it unset. -/
def settledDateOf (data : Row) : Option Date :=
  match rowGet data "ECO_RELEASE_DT" with
  | some v =>
    if truthy v then
      match v with
      | .dtv d => some d
      | .str s => parseYYYYMMDD (pyTake s 8)
      | .num _ => none
    else none
  | none => none

/-- The date the future-release lookup yields (lines 880-891): the field's
value, when truthy, parsed the same way.  A numeric payload matches
neither `isinstance` arm, leaving `future_release_date` unbound; the
resulting `NameError` is swallowed by the surrounding `except`, so no
date is yielded (the per-ticker view; the source never resets that local
between loop iterations, which no claim depends on). -/
def futureDateOf (futureField : Option Value) : Option Date :=
  match futureField with
  | some v =>
    if truthy v then
      match v with
      | .dtv d => some d
      | .str s => parseYYYYMMDD (pyTake s 8)
      | .num _ => none
    else none
  | none => none

/-- The release time string (lines 909-911): `ECO_RELEASE_TIME` when
present and truthy, stringified. -/
def releaseTimeOf (data : Row) : Option String :=
  match rowGet data "ECO_RELEASE_TIME" with
  | some v => if truthy v then some (pyStr v) else none
  | none => none

/-- `release_time.split(":")` with `int()` on the first two parts
(lines 927-930); fewer than two parts or an unparsable part yields
nothing (the `ValueError` is caught, leaving the event released). -/
def parseHM (ts : String) : Option (Int × Int) :=
  match pySplit ':' ts with
  | p0 :: p1 :: _ =>
    match pyInt p0, pyInt p1 with
    | some h, some m => some (h, m)
    | _, _ => none
  | _ => none

/-- The microseconds-since-midnight of `time(hour, minute, second=0)`. -/
def hmToUsec (h m : Int) : Nat :=
  (h.toNat * 3600 + m.toNat * 60) * 1000000

/-- The today-with-time comparison (lines 926-967, `zoneinfo` branch):
build the release instant on the release date from the parsed
`HH:MM`, and the event is future iff `now` is strictly before it.
`datetime.min.time().replace(...)` raises on an out-of-range hour or
minute, which the `except` turns into "not future". -/
def futureByTime (releaseDate : Date) (ts : String) (nowE : CivilDT) : Bool :=
  match parseHM ts with
  | none => false
  | some (h, m) =>
    if 0 ≤ h ∧ h ≤ 23 ∧ 0 ≤ m ∧ m ≤ 59 then
      CivilDT.blt nowE ⟨releaseDate, hmToUsec h m⟩
    else false

/-- The event record built per ticker (lines 983-997), with the fields
the claims observe.  `release_date` holds the `strftime("%Y-%m-%d")`
string. -/
structure EcoEvent where
  country : Value
  eventDes : Value
  release_date : Option String
  release_time : Option String
  period : Value
  survey_median : Option Rat
  actual : Option Rat
  prior : Option Rat
  revised : Option Rat
  last_update_date : Option String
  last_report_date : Option String
  prior_observation_date : Option String
deriving DecidableEq, Repr

/-- The observable outcome for one ticker: the appended event, if any,
plus the classification state the loop computed (`is_future_release`,
`is_future_event`, whether the second lookup was reached, and the
resolved `release_date`). -/
structure ClassifyResult where
  event : Option EcoEvent
  usedFutureLookup : Bool
  isFutureRelease : Bool
  isFutureEvent : Bool
  resolvedDate : Option Date
deriving DecidableEq, Repr

/-- Lines 849-899: resolve the release date.  Returns
`(release_date, is_future_release, second lookup issued)`.  Lines 868-870
only re-assert `is_future_release = False`; the second lookup is entered
when no settled date parsed or the settled date is after `today`, and its
date is adopted (and the future marker set) only when no settled date
parsed at all. -/
def resolveReleaseDate (today : Date) (data : Row) (futureField : Option Value) :
    Option Date × Bool × Bool :=
  let releaseDate0 := settledDateOf data
  let needLookup : Bool := match releaseDate0 with
    | none => true
    | some d => Date.blt today d
  if needLookup then
    match futureDateOf futureField with
    | some fd =>
      if releaseDate0.isNone then (some fd, true, true)
      else (releaseDate0, false, true)
    | none => (releaseDate0, false, true)
  else (releaseDate0, false, false)

/-- Lines 913-971: the future-vs-released determination: the future
marker wins; else a date after `today` is future; else on `today` itself
the release time decides via `futureByTime`; a past or missing date (or a
missing time) is released. -/
def isFutureEventCalc (today : Date) (nowE : CivilDT) (isFutRel : Bool)
    (releaseDate1 : Option Date) (releaseTime : Option String) : Bool :=
  if isFutRel then true
  else match releaseDate1 with
    | none => false
    | some d =>
      if Date.blt today d then true
      else if d == today then
        match releaseTime with
        | some ts => futureByTime d ts nowE
        | none => false
      else false

/-- Lines 973-997: the event record, with `actual` withheld for future
events. -/
def buildEvent (data : Row) (releaseDate1 : Option Date)
    (releaseTime : Option String) (isFutEvent : Bool) : EcoEvent :=
  { country := rowGetD data "REGION_OR_COUNTRY" (.str "")
    eventDes := rowGetD data "SECURITY_DES" (.str "")
    release_date := releaseDate1.map formatDate
    release_time := releaseTime
    period := rowGetD data "OBSERVATION_PERIOD" (.str "")
    survey_median := safeFloat (rowGet data "RT_BN_SURVEY_MEDIAN")
    actual := if isFutEvent then none else safeFloat (rowGet data "PX_LAST")
    prior := safeFloat (rowGet data "PREV_CLOSE_VAL")
    revised := safeFloat (rowGet data "FIRST_REVISION")
    last_update_date := parseDateField (rowGet data "LAST_UPDATE_DT")
    last_report_date := parseDateField (rowGet data "PREV_TRADING_DT_REALTIME")
    prior_observation_date := parseDateField (rowGet data "PRIOR_OBSERVATION_DATE") }

/-- The per-ticker body of `economic_calendar` (lines 843-1001).  A row
carrying an `error` key is recorded as an error and yields nothing. -/
def classifyTicker (today : Date) (nowE : CivilDT) (data : Row)
    (futureField : Option Value) : ClassifyResult :=
  if (rowGet data "error").isSome then
    { event := none, usedFutureLookup := false, isFutureRelease := false,
      isFutureEvent := false, resolvedDate := none }
  else
    let r := resolveReleaseDate today data futureField
    let releaseDate1 := r.1
    let isFutRel := r.2.1
    let needLookup := r.2.2
    -- lines 901-906: window filter [today, today + 365 days]
    let endDate := addDays today 365
    let windowSkip : Bool := match releaseDate1 with
      | some d => Date.blt d today || Date.blt endDate d
      | none => false
    if windowSkip then
      { event := none, usedFutureLookup := needLookup, isFutureRelease := isFutRel,
        isFutureEvent := false, resolvedDate := releaseDate1 }
    else
      let releaseTime := releaseTimeOf data
      let isFutEvent := isFutureEventCalc today nowE isFutRel releaseDate1 releaseTime
      let ev := buildEvent data releaseDate1 releaseTime isFutEvent
      -- lines 999-1001: `if event["release_date"]` (truthiness of the string)
      let emitted : Bool := match ev.release_date with
        | some s => s != ""
        | none => false
      { event := if emitted then some ev else none
        usedFutureLookup := needLookup
        isFutureRelease := isFutRel
        isFutureEvent := isFutEvent
        resolvedDate := releaseDate1 }

/-! ## General lemmas -/

/-- `date < date` is false (used for the settled-today branch). -/
theorem Date.blt_irrefl (d : Date) : Date.blt d d = false := by
  simp [Date.blt]

/-- A formatted date string is never empty (so the final
`if event["release_date"]` truthiness test is exactly presence). -/
theorem formatDate_ne_empty (d : Date) : (formatDate d != "") = true := by
  have h : 0 < (formatDate d).length := by
    have hdash : 0 < "-".length := by decide
    simp [formatDate, String.length_append]
    tauto
  simp only [bne_iff_ne, ne_eq]
  intro hcontra
  rw [hcontra] at h
  simp at h

/-- A truthy `ECO_RELEASE_DT` string is parsed through
`strptime(s[:8], "%Y%m%d")`. -/
theorem settledDateOf_str (data : Row) (s : String)
    (hdt : rowGet data "ECO_RELEASE_DT" = some (.str s)) (hne : s ≠ "") :
    settledDateOf data = parseYYYYMMDD (pyTake s 8) := by
  simp [settledDateOf, hdt, truthy, hne]

/-- A settled date equal to `today` makes the date resolution keep it,
with no future marker and no second lookup. -/
theorem resolveReleaseDate_settled_today (today : Date) (data : Row)
    (futureField : Option Value) (h : settledDateOf data = some today) :
    resolveReleaseDate today data futureField = (some today, false, false) := by
  simp [resolveReleaseDate, h, Date.blt_irrefl]

/-- `futureByTime` holds exactly when the time parses to an in-range
hour/minute and `now` is strictly before the release instant. -/
theorem futureByTime_iff (d : Date) (ts : String) (nowE : CivilDT) :
    futureByTime d ts nowE = true ↔
      ∃ h m, parseHM ts = some (h, m) ∧
        (0 ≤ h ∧ h ≤ 23 ∧ 0 ≤ m ∧ m ≤ 59) ∧
        CivilDT.blt nowE ⟨d, hmToUsec h m⟩ = true := by
  cases hp : parseHM ts with
  | none => simp [futureByTime, hp]
  | some hm =>
    obtain ⟨h, m⟩ := hm
    simp only [futureByTime, hp]
    by_cases hr : 0 ≤ h ∧ h ≤ 23 ∧ 0 ≤ m ∧ m ≤ 59
    · rw [if_pos hr]
      constructor
      · intro hb
        exact ⟨h, m, rfl, hr, hb⟩
      · rintro ⟨h1, m1, heq, hr2, hb⟩
        simp only [Option.some.injEq, Prod.mk.injEq] at heq
        obtain ⟨rfl, rfl⟩ := heq
        exact hb
    · rw [if_neg hr]
      simp only [Bool.false_eq_true, false_iff]
      rintro ⟨h1, m1, heq, hr2, hb⟩
      simp only [Option.some.injEq, Prod.mk.injEq] at heq
      obtain ⟨rfl, rfl⟩ := heq
      exact hr hr2

/-- With no future marker and the date on `today`, the determination is
the release-time comparison (released when the time is missing). -/
theorem isFutureEventCalc_today (today : Date) (nowE : CivilDT)
    (rt : Option String) :
    isFutureEventCalc today nowE false (some today) rt =
      match rt with
      | some ts => futureByTime today ts nowE
      | none => false := by
  simp [isFutureEventCalc, Date.blt_irrefl]

/-- The `{PX_MID: 10, PX_OFFICIAL_CLOSE: 11, PX_LAST: 12}` row of the
spec's quote example. -/
def quoteExampleRow : Row :=
  [("PX_MID", Value.num 10), ("PX_OFFICIAL_CLOSE", Value.num 11),
   ("PX_LAST", Value.num 12)]

/-- The `{PX_LAST: 12}` row of the spec's quote example. -/
def quoteLastOnlyRow : Row :=
  [("PX_LAST", Value.num 12)]

/-- The append-accumulating parse loop is a `filterMap` of the loop
body. -/
theorem foldl_parseStep (headers : List String) (delim : Char) :
    ∀ (ls : List String) (acc : List Row),
      ls.foldl (parseStep headers delim) acc =
        acc ++ ls.filterMap (rowOfLine headers delim) := by
  intro ls
  induction ls with
  | nil => intro acc; simp
  | cons l ls ih =>
    intro acc
    simp only [List.foldl_cons, List.filterMap_cons, parseStep]
    cases h : rowOfLine headers delim l with
    | none => simp [ih]
    | some r => simp [ih]

/-! ## Claim theorems -/

/-- Claim C8: the delimited parser yields exactly one row per non-empty
data line whose field count equals the header count (mismatched rows are
dropped, never an error), keyed by the trimmed, quote-stripped,
lowercased header cells, with cells float-coerced when possible, kept as
trimmed strings otherwise, and null (absent) when empty; header `a,b,c`
with row `1,2,3` yields the single row `{a: 1.0, b: 2.0, c: 3.0}`. -/
theorem C8_delimited_parsing :
    (∀ lines delim, parse_delimited_file lines delim =
      match lines with
      | [] => []
      | [_] => []
      | header :: rest =>
        rest.filterMap
          (rowOfLine ((pySplit delim (pyStrip header)).map headerCell) delim)) ∧
    (∀ headers delim line, (rowOfLine headers delim line).isSome ↔
      (pyStrip line ≠ "" ∧ (pySplit delim (pyStrip line)).length = headers.length)) ∧
    parse_delimited_file ["a,b,c", "1,2,3"] ',' =
      [[("a", Value.num 1), ("b", Value.num 2), ("c", Value.num 3)]] ∧
    parse_delimited_file ["a,b,c", "1,2"] ',' = [] ∧
    cellValue "" = none := by
  refine ⟨?_, ?_, by decide, by decide, rfl⟩
  · intro lines delim
    match lines with
    | [] => rfl
    | [_] => rfl
    | header :: l :: rest =>
      simp only [parse_delimited_file]
      rw [foldl_parseStep]
      simp
  · intro headers delim line
    simp only [rowOfLine]
    by_cases h : pyStrip line = ""
    · simp [h]
    · have hb : (pyStrip line == "") = false := by
        simpa using h
      simp only [hb, Bool.false_eq_true, if_false]
      by_cases hlen : ((pySplit delim (pyStrip line)).map valueCell).length
          = headers.length
      · simp [hlen, h]
        simpa using hlen
      · have hne : (((pySplit delim (pyStrip line)).map valueCell).length
            != headers.length) = true := by
          simpa using hlen
        simp only [hne, if_true]
        simp only [Option.isSome_none, Bool.false_eq_true, false_iff]
        intro hcontra
        exact hlen (by simpa using hcontra.2)

/-- Claim C5: per ticker row, the in-session price is the mid price when
present and the out-of-session price is the official close when present
(each coerced, with a non-coercible chosen value dropping the ticker); an
absent session-preferred field falls back to the last-trade price; a row
with none of them, or a non-coercible chosen value, yields no price
rather than zero; and on `{PX_MID: 10, PX_OFFICIAL_CLOSE: 11, PX_LAST: 12}`
the price is 10 in session and 11 out of session, while `{PX_LAST: 12}`
gives 12 in either mode. -/
theorem C5_quote_selection :
    (∀ row v, rowGet row "error" = none → rowGet row "PX_MID" = some v →
      quotePrice true row = floatCoerce v) ∧
    (∀ row v, rowGet row "error" = none → rowGet row "PX_OFFICIAL_CLOSE" = some v →
      quotePrice false row = floatCoerce v) ∧
    (∀ row, rowGet row "error" = none → rowGet row "PX_MID" = none →
      quotePrice true row = safeFloat (rowGet row "PX_LAST")) ∧
    (∀ row, rowGet row "error" = none → rowGet row "PX_OFFICIAL_CLOSE" = none →
      quotePrice false row = safeFloat (rowGet row "PX_LAST")) ∧
    (∀ row mode, rowGet row "error" = none → rowGet row "PX_MID" = none →
      rowGet row "PX_OFFICIAL_CLOSE" = none → rowGet row "PX_LAST" = none →
      quotePrice mode row = none) ∧
    quotePrice true quoteExampleRow = some 10 ∧
    quotePrice false quoteExampleRow = some 11 ∧
    quotePrice true quoteLastOnlyRow = some 12 ∧
    quotePrice false quoteLastOnlyRow = some 12 := by
  refine ⟨?_, ?_, ?_, ?_, ?_, ?_, ?_, ?_, ?_⟩
  · intro row v herr hmid
    simp [quotePrice, herr, hmid, floatCoerce]
  · intro row v herr hcl
    simp [quotePrice, herr, hcl, floatCoerce]
  · intro row herr hmid
    simp [quotePrice, herr, hmid]
  · intro row herr hcl
    simp [quotePrice, herr, hcl]
  · intro row mode herr hmid hcl hlast
    cases mode <;> simp [quotePrice, herr, hmid, hcl, hlast, safeFloat]
  · decide
  · decide
  · decide
  · decide

/-- Claim C10: the market-session test is inclusive at 09:30:00 and
16:00:00 US-Eastern civil time (so the mid-price preference still applies
at 16:00:00 sharp), any instant strictly outside the closed interval is
out of session, and absent timezone data yields not-in-session. -/
theorem C10_market_hours_boundaries :
    isUsMarketHours none = false ∧
    isUsMarketHours (some marketOpenUs) = true ∧
    isUsMarketHours (some marketCloseUs) = true ∧
    (∀ t, t < marketOpenUs → isUsMarketHours (some t) = false) ∧
    (∀ t, marketCloseUs < t → isUsMarketHours (some t) = false) ∧
    quotePrice (isUsMarketHours (some marketCloseUs)) quoteExampleRow = some 10 := by
  refine ⟨rfl, by decide, by decide, ?_, ?_, by decide⟩
  · intro t ht
    simp only [isUsMarketHours, Bool.and_eq_false_iff]
    left
    simpa using Nat.not_le_of_lt ht
  · intro t ht
    simp only [isUsMarketHours, Bool.and_eq_false_iff]
    right
    simpa using Nat.not_le_of_lt ht

/-- Claim C7: the date normalizer maps the three-letter-month plus
two-digit-year shorthand (case-insensitive month) to `YYYY-MM-01` with the
pivot `YY < 50 → 2000+YY`, else `1900+YY` (so `Jan-24 → 2024-01-01` and
`Jan-75 → 1975-01-01`), and returns null for empty input and for every
string that neither matches the shorthand (including a matching shape
whose month abbreviation is unknown) nor is accepted by the general
parser. -/
theorem C7_normalize_date :
    (∀ gp s mon yy m, s ≠ "" → matchMonYY (pyStrip s) = some (mon, yy) →
      monthLookup (pyLower mon) = some m →
      normalize_date gp s =
        some (formatMonthStart (if yy < 50 then 2000 + yy else 1900 + yy) m)) ∧
    (∀ gp, normalize_date gp "Jan-24" = some "2024-01-01") ∧
    (∀ gp, normalize_date gp "Jan-75" = some "1975-01-01") ∧
    (∀ gp, normalize_date gp "" = none) ∧
    (∀ gp s, s ≠ "" → matchMonYY (pyStrip s) = none → gp s = none →
      normalize_date gp s = none) ∧
    (∀ gp s mon yy, s ≠ "" → matchMonYY (pyStrip s) = some (mon, yy) →
      monthLookup (pyLower mon) = none → gp s = none →
      normalize_date gp s = none) ∧
    normalize_date (fun _ => none) "not a date" = none := by
  refine ⟨?_, ?_, ?_, ?_, ?_, ?_, ?_⟩
  · intro gp s mon yy m hs hm hl
    simp [normalize_date, hs, hm, hl]
  · intro gp; rfl
  · intro gp; rfl
  · intro gp; rfl
  · intro gp s hs hm hgp
    simp [normalize_date, hs, hm, hgp]
  · intro gp s mon yy hs hm hl hgp
    simp [normalize_date, hs, hm, hl, hgp]
  · rfl

/-- Claim C1: a ticker classified future (by the future-marker of the
second lookup, or by the date/time determination) has its emitted event's
`actual` forced null regardless of any raw `PX_LAST` value; a ticker
classified released takes `actual` from the best-effort float coercion of
`PX_LAST` (null when absent or non-numeric). -/
theorem C1_actual_policy (today : Date) (nowE : CivilDT) (data : Row)
    (futureField : Option Value) :
    ((classifyTicker today nowE data futureField).isFutureEvent = true →
      ∀ ev, (classifyTicker today nowE data futureField).event = some ev →
        ev.actual = none) ∧
    ((classifyTicker today nowE data futureField).isFutureEvent = false →
      ∀ ev, (classifyTicker today nowE data futureField).event = some ev →
        ev.actual = safeFloat (rowGet data "PX_LAST")) ∧
    ((classifyTicker today nowE data futureField).isFutureRelease = true →
      ∀ ev, (classifyTicker today nowE data futureField).event = some ev →
        ev.actual = none) := by
  cases herr : (rowGet data "error").isSome with
  | true => simp [classifyTicker, herr]
  | false =>
    cases hrd : (resolveReleaseDate today data futureField).1 with
    | none =>
      simp [classifyTicker, herr, hrd, buildEvent]
    | some d =>
      by_cases hws : (Date.blt d today || Date.blt (addDays today 365) d) = true
      · simp [classifyTicker, herr, hrd, hws]
      · have hws2 : (Date.blt d today || Date.blt (addDays today 365) d) = false := by
          simpa using hws
        cases hfe : isFutureEventCalc today nowE
            (resolveReleaseDate today data futureField).2.1 (some d)
            (releaseTimeOf data) with
        | true =>
          constructor
          · intro _ ev hev
            simp [classifyTicker, herr, hrd, hws2, formatDate_ne_empty, hfe] at hev
            obtain ⟨-, hev⟩ := hev
            subst hev
            simp [buildEvent]
          constructor
          · intro hcontra
            simp [classifyTicker, herr, hrd, hws2, hfe] at hcontra
          · intro hfr ev hev
            simp [classifyTicker, herr, hrd, hws2, formatDate_ne_empty, hfe] at hev
            obtain ⟨-, hev⟩ := hev
            subst hev
            simp [buildEvent]
        | false =>
          have hfr : (resolveReleaseDate today data futureField).2.1 = false := by
            by_contra hc
            have hc2 : (resolveReleaseDate today data futureField).2.1 = true := by
              simpa using hc
            rw [hc2] at hfe
            simp [isFutureEventCalc] at hfe
          constructor
          · intro hcontra
            simp [classifyTicker, herr, hrd, hws2, hfe] at hcontra
          constructor
          · intro _ ev hev
            simp [classifyTicker, herr, hrd, hws2, formatDate_ne_empty, hfe] at hev
            obtain ⟨-, hev⟩ := hev
            subst hev
            simp [buildEvent]
          · intro hcontra
            simp [classifyTicker, herr, hrd, hws2, hfr] at hcontra

/-- Claim C3: no event is emitted when no release date was resolved, nor
when the resolved date is strictly before today or strictly after
today + 365 days; every resolved date inside the inclusive window is
emitted (with the formatted resolved date as the event's release_date). -/
theorem C3_window_filter (today : Date) (nowE : CivilDT) (data : Row)
    (futureField : Option Value) :
    ((classifyTicker today nowE data futureField).resolvedDate = none →
      (classifyTicker today nowE data futureField).event = none) ∧
    (∀ d, (classifyTicker today nowE data futureField).resolvedDate = some d →
      (Date.blt d today = true ∨ Date.blt (addDays today 365) d = true) →
      (classifyTicker today nowE data futureField).event = none) ∧
    (∀ d, (classifyTicker today nowE data futureField).resolvedDate = some d →
      Date.blt d today = false → Date.blt (addDays today 365) d = false →
      ∃ ev, (classifyTicker today nowE data futureField).event = some ev ∧
        ev.release_date = some (formatDate d)) := by
  cases herr : (rowGet data "error").isSome with
  | true => simp [classifyTicker, herr]
  | false =>
    cases hrd : (resolveReleaseDate today data futureField).1 with
    | none =>
      simp [classifyTicker, herr, hrd, buildEvent]
    | some d =>
      by_cases hws : (Date.blt d today || Date.blt (addDays today 365) d) = true
      · simp only [classifyTicker, herr, hrd, hws]
        refine ⟨by simp, ?_, ?_⟩
        · intro d2 _ _
          rfl
        · intro d2 hd2 hlt hgt
          simp at hd2
          subst hd2
          rw [hlt, hgt] at hws
          simp at hws
      · have hws2 : (Date.blt d today || Date.blt (addDays today 365) d) = false := by
          simpa using hws
        simp only [classifyTicker, herr, hrd, hws2]
        refine ⟨by simp, by simp_all, ?_⟩
        intro d2 hd2 _ _
        obtain rfl : d = d2 := by simpa using hd2
        refine ⟨buildEvent data (some d) (releaseTimeOf data)
          (isFutureEventCalc today nowE
            (resolveReleaseDate today data futureField).2.1 (some d)
            (releaseTimeOf data)), ?_, ?_⟩
        · simp [buildEvent, formatDate_ne_empty]
        · simp [buildEvent]

/-- Claim C4: with a settled release date equal to today (and hence no
future marker), the event is future exactly when `now` in US-Eastern
civil time is strictly before the release instant built from the
parsed `HH:MM` release time on that date; a missing or unparsable
release time classifies the event as already released. -/
theorem C4_today_time_cutover (today : Date) (nowE : CivilDT) (data : Row)
    (futureField : Option Value) (s : String)
    (herr : rowGet data "error" = none)
    (hdt : rowGet data "ECO_RELEASE_DT" = some (Value.str s))
    (hne : s ≠ "")
    (hparse : parseYYYYMMDD (pyTake s 8) = some today)
    (hwin : Date.blt (addDays today 365) today = false) :
    ((classifyTicker today nowE data futureField).isFutureRelease = false) ∧
    (∀ ts, releaseTimeOf data = some ts →
      ((classifyTicker today nowE data futureField).isFutureEvent = true ↔
        ∃ h m, parseHM ts = some (h, m) ∧
          (0 ≤ h ∧ h ≤ 23 ∧ 0 ≤ m ∧ m ≤ 59) ∧
          CivilDT.blt nowE ⟨today, hmToUsec h m⟩ = true)) ∧
    (releaseTimeOf data = none →
      (classifyTicker today nowE data futureField).isFutureEvent = false) ∧
    (∀ ts, releaseTimeOf data = some ts → parseHM ts = none →
      (classifyTicker today nowE data futureField).isFutureEvent = false) := by
  have hsettled : settledDateOf data = some today := by
    rw [settledDateOf_str data s hdt hne, hparse]
  have hres := resolveReleaseDate_settled_today today data futureField hsettled
  have herr2 : (rowGet data "error").isSome = false := by
    simp [herr]
  have hws2 : (Date.blt today today || Date.blt (addDays today 365) today) = false := by
    simp [Date.blt_irrefl, hwin]
  refine ⟨?_, ?_, ?_, ?_⟩
  · simp [classifyTicker, herr2, hres, hws2]
  · intro ts hts
    have : (classifyTicker today nowE data futureField).isFutureEvent =
        futureByTime today ts nowE := by
      simp [classifyTicker, herr2, hres, hws2, isFutureEventCalc_today, hts]
    rw [this]
    exact futureByTime_iff today ts nowE
  · intro hts
    simp [classifyTicker, herr2, hres, hws2, isFutureEventCalc_today, hts]
  · intro ts hts hpm
    simp [classifyTicker, herr2, hres, hws2, isFutureEventCalc_today, hts,
      futureByTime, hpm]

/-- Witness for C4: on 2026-10-12 with release time `08:30:00` and `now`
at 08:00 Eastern the event is future; the same hypotheses discharge at a
concrete input. -/
theorem C4_today_time_cutover_witness :
    ((classifyTicker ⟨2026, 10, 12⟩ ⟨⟨2026, 10, 12⟩, 28800000000⟩
        [("ECO_RELEASE_DT", Value.str "20261012"),
         ("ECO_RELEASE_TIME", Value.str "08:30:00"),
         ("PX_LAST", Value.num 5)] none).isFutureRelease = false) ∧
    (∀ ts, releaseTimeOf
        [("ECO_RELEASE_DT", Value.str "20261012"),
         ("ECO_RELEASE_TIME", Value.str "08:30:00"),
         ("PX_LAST", Value.num 5)] = some ts →
      ((classifyTicker ⟨2026, 10, 12⟩ ⟨⟨2026, 10, 12⟩, 28800000000⟩
          [("ECO_RELEASE_DT", Value.str "20261012"),
           ("ECO_RELEASE_TIME", Value.str "08:30:00"),
           ("PX_LAST", Value.num 5)] none).isFutureEvent = true ↔
        ∃ h m, parseHM ts = some (h, m) ∧
          (0 ≤ h ∧ h ≤ 23 ∧ 0 ≤ m ∧ m ≤ 59) ∧
          CivilDT.blt ⟨⟨2026, 10, 12⟩, 28800000000⟩ ⟨⟨2026, 10, 12⟩, hmToUsec h m⟩ = true)) ∧
    (releaseTimeOf
        [("ECO_RELEASE_DT", Value.str "20261012"),
         ("ECO_RELEASE_TIME", Value.str "08:30:00"),
         ("PX_LAST", Value.num 5)] = none →
      (classifyTicker ⟨2026, 10, 12⟩ ⟨⟨2026, 10, 12⟩, 28800000000⟩
          [("ECO_RELEASE_DT", Value.str "20261012"),
           ("ECO_RELEASE_TIME", Value.str "08:30:00"),
           ("PX_LAST", Value.num 5)] none).isFutureEvent = false) ∧
    (∀ ts, releaseTimeOf
        [("ECO_RELEASE_DT", Value.str "20261012"),
         ("ECO_RELEASE_TIME", Value.str "08:30:00"),
         ("PX_LAST", Value.num 5)] = some ts → parseHM ts = none →
      (classifyTicker ⟨2026, 10, 12⟩ ⟨⟨2026, 10, 12⟩, 28800000000⟩
          [("ECO_RELEASE_DT", Value.str "20261012"),
           ("ECO_RELEASE_TIME", Value.str "08:30:00"),
           ("PX_LAST", Value.num 5)] none).isFutureEvent = false) :=
  C4_today_time_cutover ⟨2026, 10, 12⟩ ⟨⟨2026, 10, 12⟩, 28800000000⟩
    [("ECO_RELEASE_DT", Value.str "20261012"),
     ("ECO_RELEASE_TIME", Value.str "08:30:00"),
     ("PX_LAST", Value.num 5)] none "20261012"
    (by decide) (by decide) (by decide) (by decide) (by decide)

/-- Counterexample to C2 as stated: with `today = 2026-10-12`,
`ECO_RELEASE_DT = "20261020"` (parses strictly after today) and the
future lookup yielding the parseable `"20261101"`, the lookup is issued
and yields a date, yet the event keeps release_date 2026-10-20 and is
not marked provisionally future. -/
theorem C2_counterexample :
    futureDateOf (some (Value.str "20261101")) = some ⟨2026, 11, 1⟩ ∧
    (classifyTicker ⟨2026, 10, 12⟩ ⟨⟨2026, 10, 12⟩, 0⟩
        [("ECO_RELEASE_DT", Value.str "20261020")]
        (some (Value.str "20261101"))).usedFutureLookup = true ∧
    (classifyTicker ⟨2026, 10, 12⟩ ⟨⟨2026, 10, 12⟩, 0⟩
        [("ECO_RELEASE_DT", Value.str "20261020")]
        (some (Value.str "20261101"))).isFutureRelease = false ∧
    (classifyTicker ⟨2026, 10, 12⟩ ⟨⟨2026, 10, 12⟩, 0⟩
        [("ECO_RELEASE_DT", Value.str "20261020")]
        (some (Value.str "20261101"))).resolvedDate = some ⟨2026, 10, 20⟩ := by
  decide

/-- Claim C2 as amended: the second lookup is issued exactly when the
settled date is absent/unparsable or strictly after today, and the
looked-up date becomes the release_date with the provisional future
marker exactly when, additionally, no settled date parsed at all. -/
theorem C2_amended_future_lookup (today : Date) (nowE : CivilDT) (data : Row)
    (futureField : Option Value)
    (herr : rowGet data "error" = none) :
    ((classifyTicker today nowE data futureField).usedFutureLookup = true ↔
      (settledDateOf data = none ∨
        ∃ d, settledDateOf data = some d ∧ Date.blt today d = true)) ∧
    (settledDateOf data = none →
      ∀ fd, futureDateOf futureField = some fd →
        (classifyTicker today nowE data futureField).resolvedDate = some fd ∧
        (classifyTicker today nowE data futureField).isFutureRelease = true) := by
  have herr2 : (rowGet data "error").isSome = false := by
    simp [herr]
  have hused : (classifyTicker today nowE data futureField).usedFutureLookup =
      (resolveReleaseDate today data futureField).2.2 := by
    simp only [classifyTicker, herr2, Bool.false_eq_true, if_false]
    cases hrd : (resolveReleaseDate today data futureField).1 with
    | none => simp [hrd]
    | some d =>
      by_cases hws : (Date.blt d today || Date.blt (addDays today 365) d) = true
      · simp [hrd, hws]
      · have hws2 : (Date.blt d today || Date.blt (addDays today 365) d) = false := by
          simpa using hws
        simp [hrd, hws2]
  constructor
  · rw [hused]
    cases hs : settledDateOf data with
    | none =>
      simp only [resolveReleaseDate, hs]
      cases futureDateOf futureField <;> simp [hs]
    | some d =>
      cases hblt : Date.blt today d with
      | false =>
        simp only [resolveReleaseDate, hs, hblt, Bool.false_eq_true, if_false]
        simp [hblt]
      | true =>
        simp only [resolveReleaseDate, hs, hblt, if_true]
        cases futureDateOf futureField with
        | none => simp [hblt]
        | some fd => simp [hblt]
  · intro hs fd hfd
    have hres : resolveReleaseDate today data futureField = (some fd, true, true) := by
      simp [resolveReleaseDate, hs, hfd]
    constructor
    · simp only [classifyTicker, herr2, Bool.false_eq_true, if_false, hres]
      by_cases hws : (Date.blt fd today || Date.blt (addDays today 365) fd) = true
      · simp [hws]
      · have hws2 : (Date.blt fd today || Date.blt (addDays today 365) fd) = false := by
          simpa using hws
        simp [hws2]
    · simp only [classifyTicker, herr2, Bool.false_eq_true, if_false, hres]
      by_cases hws : (Date.blt fd today || Date.blt (addDays today 365) fd) = true
      · simp [hws]
      · have hws2 : (Date.blt fd today || Date.blt (addDays today 365) fd) = false := by
          simpa using hws
        simp [hws2]

/-- Witness for the amended C2: a ticker with no settled date and a
parseable looked-up date 2026-11-01 adopts it and is marked future. -/
theorem C2_amended_future_lookup_witness :
    ((classifyTicker ⟨2026, 10, 12⟩ ⟨⟨2026, 10, 12⟩, 0⟩ []
        (some (Value.str "20261101"))).usedFutureLookup = true ↔
      (settledDateOf [] = none ∨
        ∃ d, settledDateOf [] = some d ∧ Date.blt ⟨2026, 10, 12⟩ d = true)) ∧
    (settledDateOf [] = none →
      ∀ fd, futureDateOf (some (Value.str "20261101")) = some fd →
        (classifyTicker ⟨2026, 10, 12⟩ ⟨⟨2026, 10, 12⟩, 0⟩ []
            (some (Value.str "20261101"))).resolvedDate = some fd ∧
        (classifyTicker ⟨2026, 10, 12⟩ ⟨⟨2026, 10, 12⟩, 0⟩ []
            (some (Value.str "20261101"))).isFutureRelease = true) :=
  C2_amended_future_lookup ⟨2026, 10, 12⟩ ⟨⟨2026, 10, 12⟩, 0⟩ []
    (some (Value.str "20261101")) (by decide)

/-- The batch slices reassemble to the full record list. -/
theorem chunks100_flatten {α : Type} (l : List α) : (chunks100 l).flatten = l := by
  induction l using chunks100.induct with
  | case1 => simp [chunks100]
  | case2 x xs ih =>
    rw [chunks100]
    simp only [List.flatten_cons, ih]
    rw [show (100 : Nat) = 99 + 1 from rfl, List.take_succ_cons]
    simp [List.take_append_drop]

/-- Every batch slice except the last holds exactly 100 records. -/
theorem chunks100_dropLast_sizes {α : Type} (l : List α) :
    ∀ c ∈ (chunks100 l).dropLast, c.length = 100 := by
  induction l using chunks100.induct with
  | case1 => simp [chunks100]
  | case2 x xs ih =>
    rw [chunks100]
    intro c hc
    by_cases hnil : chunks100 (xs.drop 99) = []
    · rw [hnil] at hc
      simp at hc
    · rw [List.dropLast_cons_of_ne_nil hnil] at hc
      rcases List.mem_cons.mp hc with rfl | hc2
      · have hlen : 99 < xs.length := by
          by_contra hle
          push_neg at hle
          apply hnil
          rw [List.drop_eq_nil_of_le hle]
          simp [chunks100]
        simp only [List.length_take, List.length_cons]
        omega
      · exact ih c hc2

/-- The accumulating pass emits the current batch filled to its
capacity and then the remaining slices. -/
theorem chunks100Go_eq {α : Type} :
    ∀ (l : List α) (k : Nat) (cur : List α),
      chunks100Go k cur l = (cur.reverse ++ l.take k) :: chunks100 (l.drop k) := by
  intro l
  induction l with
  | nil =>
    intro k cur
    simp [chunks100Go, chunks100]
  | cons x xs ih =>
    intro k cur
    match k with
    | 0 =>
      simp only [chunks100Go, List.take_zero, List.drop_zero, List.append_nil]
      rw [ih 99 [x], chunks100]
      simp
    | k2 + 1 =>
      simp only [chunks100Go]
      rw [ih k2 (x :: cur)]
      simp [List.take_succ_cons, List.drop_succ_cons]

/-- `chunks100` agrees with its kernel-computable form. -/
theorem chunks100_eq_run {α : Type} (l : List α) :
    chunks100 l = chunks100Run l := by
  match l with
  | [] => simp [chunks100, chunks100Run]
  | x :: xs =>
    rw [chunks100, chunks100Run, chunks100Go_eq xs 99 [x]]
    simp

/-- A run of successful batches only accumulates their lengths. -/
theorem foldl_batchStep_ok (f : RecordsMap → Except String Unit)
    (bs : List RecordsMap) (h : ∀ b ∈ bs, f b = .ok ()) :
    ∀ acc : Nat × List String,
      bs.foldl (batchStep f) acc = (acc.1 + (bs.map List.length).sum, acc.2) := by
  induction bs with
  | nil => intro acc; simp
  | cons b bs ih =>
    intro acc
    have hb : f b = .ok () := h b (List.mem_cons_self b bs)
    have hrest : ∀ b2 ∈ bs, f b2 = .ok () := by
      intro b2 hb2
      exact h b2 (List.mem_cons_of_mem b hb2)
    simp only [List.foldl_cons, List.map_cons, List.sum_cons, batchStep, hb]
    rw [ih hrest]
    simp only [Prod.mk.injEq]
    constructor
    · omega
    · trivial

/-- Claim C9: upserts go out in fixed-size batches of 100 (every batch
before the failing one in the decomposition is exactly 100 records, and
the batches reassemble to the full insert list), and one failing batch
does not block the others: with every other batch succeeding and batch N
raising `e`, the inserted total is the summed size of all other batches
and `e` is the whole errors collection. -/
theorem C9_batch_partial_failure (f : RecordsMap → Except String Unit)
    (records : RecordsMap) (pre post : List RecordsMap) (batch : RecordsMap)
    (e : String)
    (hdecomp : chunks100 records = pre ++ batch :: post)
    (hpre : ∀ b ∈ pre, f b = .ok ())
    (hbatch : f batch = .error e)
    (hpost : ∀ b ∈ post, f b = .ok ()) :
    runBatches f records =
      ((pre.map List.length).sum + (post.map List.length).sum, [e]) ∧
    (chunks100 records).flatten = records ∧
    (∀ b ∈ pre, b.length = 100) := by
  refine ⟨?_, chunks100_flatten records, ?_⟩
  · rw [runBatches, hdecomp, List.foldl_append]
    rw [foldl_batchStep_ok f pre hpre (0, [])]
    simp only [List.foldl_cons, batchStep, hbatch]
    rw [foldl_batchStep_ok f post hpost _]
    simp
  · intro b hb
    apply chunks100_dropLast_sizes records
    rw [hdecomp, List.dropLast_append_cons]
    exact List.mem_append_left _ hb

/-- The 201 witness records for C9: two full batches and one of size
one, with the middle batch's first record marked so the upsert stub can
fail it. -/
def wRecords : RecordsMap :=
  List.replicate 100 ("", []) ++ ("x", []) :: List.replicate 100 ("", [])

/-- An upsert stub that raises exactly on the batch whose first record
is the marked one. -/
def wUpsert (b : RecordsMap) : Except String Unit :=
  match b with
  | p :: _ => if p.1 == "x" then .error "batch 2 failed" else .ok ()
  | [] => .ok ()

/-- Witness for C9: of the three batches of `wRecords`, batch 2 fails,
batches 1 and 3 still count their 100 + 1 records and the error text is
collected. -/
theorem C9_batch_partial_failure_witness :
    runBatches wUpsert wRecords = (101, ["batch 2 failed"]) := by
  have h := C9_batch_partial_failure wUpsert wRecords
    [List.replicate 100 ("", [])] [[("", [])]]
    (("x", []) :: List.replicate 99 ("", [])) "batch 2 failed"
    ((chunks100_eq_run wRecords).trans (by decide))
    (by decide) (by decide) (by decide)
  rw [h.1]
  decide

/-! ## Lemmas for the idempotence guard (C6) -/

/-- Whether a row would write at least one mapped column (the inner
mapping loop performs at least one `record[db_column] = float(value)`). -/
def rowSets (mappings : Mapping) (row : Row) : Bool :=
  mappings.any (fun p =>
    match rowGet row (pyLower p.1) with
    | none => false
    | some v => nonEmptyValue v && (floatCoerce v).isSome)

/-- Setting a key never empties an association list. -/
theorem assocSet_ne_nil {α : Type} (k : String) (v : α)
    (l : List (String × α)) : assocSet k v l ≠ [] := by
  cases l with
  | nil => simp [assocSet]
  | cons p rest =>
    obtain ⟨k2, v2⟩ := p
    simp only [assocSet]
    split <;> simp

/-- Members of an updated association list are the new pair or old
members. -/
theorem mem_assocSet {α : Type} (k : String) (v : α) :
    ∀ (l : List (String × α)) (p : String × α),
      p ∈ assocSet k v l → p = (k, v) ∨ p ∈ l := by
  intro l
  induction l with
  | nil =>
    intro p hp
    simp only [assocSet, List.mem_singleton] at hp
    exact Or.inl hp
  | cons q rest ih =>
    intro p hp
    obtain ⟨k2, v2⟩ := q
    simp only [assocSet] at hp
    by_cases hk : (k2 == k) = true
    · rw [if_pos hk] at hp
      rcases List.mem_cons.mp hp with h1 | h2
      · exact Or.inl h1
      · exact Or.inr (List.mem_cons_of_mem _ h2)
    · rw [if_neg hk] at hp
      rcases List.mem_cons.mp hp with h1 | h2
      · exact Or.inr (h1 ▸ List.mem_cons_self _ _)
      · rcases ih p h2 with h3 | h4
        · exact Or.inl h3
        · exact Or.inr (List.mem_cons_of_mem _ h4)

/-- Looking up the key just set yields the new record. -/
theorem getRecord_cons (d2 : String) (r2 : Row) (rest : RecordsMap) (d : String) :
    getRecord ((d2, r2) :: rest) d =
      if (d2 == d) = true then r2 else getRecord rest d := by
  simp only [getRecord, List.find?_cons]
  cases h : ((d2, r2).1 == d) with
  | true => simp [show (d2 == d) = true from h]
  | false => simp [show (d2 == d) = false from h, getRecord]

/-- Unfolding `assocSet` over a cons cell. -/
theorem assocSet_cons {α : Type} (k k2 : String) (v v2 : α)
    (rest : List (String × α)) :
    assocSet k v ((k2, v2) :: rest) =
      if (k2 == k) = true then (k, v) :: rest
      else (k2, v2) :: assocSet k v rest := rfl

/-- Looking up the key just set yields the new record. -/
theorem getRecord_assocSet_self (m : RecordsMap) (d : String) (rec : Row) :
    getRecord (assocSet d rec m) d = rec := by
  induction m with
  | nil => simp [assocSet, getRecord]
  | cons p rest ih =>
    obtain ⟨d2, r2⟩ := p
    rw [assocSet_cons]
    by_cases h : (d2 == d) = true
    · rw [if_pos h, getRecord_cons]
      simp
    · have hb : (d2 == d) = false := by simpa using h
      rw [if_neg h, getRecord_cons, hb]
      simp only [Bool.false_eq_true, if_false]
      exact ih

/-- Looking up a different key is unaffected by the update. -/
theorem getRecord_assocSet_ne (m : RecordsMap) (d d2 : String) (rec : Row)
    (h : d2 ≠ d) : getRecord (assocSet d rec m) d2 = getRecord m d2 := by
  have hb : (d == d2) = false := by simpa using (Ne.symm h)
  induction m with
  | nil =>
    show getRecord ((d, rec) :: []) d2 = getRecord [] d2
    rw [getRecord_cons, hb]
    simp only [Bool.false_eq_true, if_false]
  | cons p rest ih =>
    obtain ⟨k2, r2⟩ := p
    rw [assocSet_cons]
    by_cases hk : (k2 == d) = true
    · have hkd : k2 = d := by simpa using hk
      subst hkd
      rw [if_pos hk, getRecord_cons, getRecord_cons, hb]
      simp only [Bool.false_eq_true, if_false]
    · rw [if_neg hk, getRecord_cons, getRecord_cons]
      cases hp : (k2 == d2) with
      | true => simp
      | false =>
        simp only [hp, Bool.false_eq_true, if_false]
        exact ih

/-- A row that sets no mapped column leaves a record unchanged. -/
theorem applyMappings_of_not_sets (row : Row) :
    ∀ (mappings : Mapping) (rec : Row), rowSets mappings row = false →
      applyMappings mappings row rec = rec := by
  intro mappings
  induction mappings with
  | nil => intro rec _; rfl
  | cons p ps ih =>
    intro rec hns
    simp only [rowSets, List.any_cons, Bool.or_eq_false_iff] at hns
    obtain ⟨hp, hps⟩ := hns
    simp only [applyMappings, List.foldl_cons]
    cases hg : rowGet row (pyLower p.1) with
    | none =>
      simp only [hg]
      exact ih rec (by simp [rowSets, hps])
    | some v =>
      have hp2 : (nonEmptyValue v && (floatCoerce v).isSome) = false := by
        rw [hg] at hp
        simpa using hp
      simp only [hg]
      by_cases hne2 : nonEmptyValue v = true
      · rw [if_pos hne2]
        cases hf : floatCoerce v with
        | none => exact ih rec (by simp [rowSets, hps])
        | some q =>
          rw [hne2, hf] at hp2
          simp at hp2
      · have hne3 : nonEmptyValue v = false := by simpa using hne2
        rw [hne3]
        simp only [Bool.false_eq_true, if_false]
        exact ih rec (by simp [rowSets, hps])

/-- The mapping loop never empties a non-empty record. -/
theorem applyMappings_ne_nil (row : Row) :
    ∀ (mappings : Mapping) (rec : Row), rec ≠ [] →
      applyMappings mappings row rec ≠ [] := by
  intro mappings
  induction mappings with
  | nil => intro rec h; exact h
  | cons p ps ih =>
    intro rec h
    simp only [applyMappings, List.foldl_cons]
    cases hg : rowGet row (pyLower p.1) with
    | none =>
      simp only [hg]
      exact ih rec h
    | some v =>
      simp only [hg]
      by_cases hne2 : nonEmptyValue v = true
      · rw [if_pos hne2]
        cases hf : floatCoerce v with
        | none => exact ih rec h
        | some q => exact ih _ (assocSet_ne_nil _ _ _)
      · have hne3 : nonEmptyValue v = false := by simpa using hne2
        rw [hne3]
        simp only [Bool.false_eq_true, if_false]
        exact ih rec h

/-- A row that sets a mapped column leaves a non-empty record. -/
theorem applyMappings_ne_nil_of_sets (row : Row) :
    ∀ (mappings : Mapping) (rec : Row), rowSets mappings row = true →
      applyMappings mappings row rec ≠ [] := by
  intro mappings
  induction mappings with
  | nil =>
    intro rec h
    simp [rowSets] at h
  | cons p ps ih =>
    intro rec h
    simp only [rowSets, List.any_cons, Bool.or_eq_true] at h
    simp only [applyMappings, List.foldl_cons]
    cases hg : rowGet row (pyLower p.1) with
    | none =>
      simp only [hg]
      rcases h with hp | hps
      · rw [hg] at hp; simp at hp
      · exact ih rec (by simp [rowSets, hps])
    | some v =>
      simp only [hg]
      by_cases hne2 : nonEmptyValue v = true
      · rw [if_pos hne2]
        cases hf : floatCoerce v with
        | none =>
          rcases h with hp | hps
          · have hp2 : (nonEmptyValue v && (floatCoerce v).isSome) = true := by
              rw [hg] at hp
              simpa using hp
            rw [hne2, hf] at hp2
            simp at hp2
          · exact ih rec (by simp [rowSets, hps])
        | some q => exact applyMappings_ne_nil row ps _ (assocSet_ne_nil _ _ _)
      · have hne3 : nonEmptyValue v = false := by simpa using hne2
        rw [hne3]
        simp only [Bool.false_eq_true, if_false]
        rcases h with hp | hps
        · have hp2 : (nonEmptyValue v && (floatCoerce v).isSome) = true := by
            rw [hg] at hp
            simpa using hp
          rw [hne3] at hp2
          simp at hp2
        · exact ih rec (by simp [rowSets, hps])

/-- Every column the mapping loop writes is a mapping target. -/
theorem mem_applyMappings (row : Row) :
    ∀ (mappings : Mapping) (rec : Row) (cv : String × Value),
      cv ∈ applyMappings mappings row rec →
      cv ∈ rec ∨ ∃ q ∈ mappings, q.2 = cv.1 := by
  intro mappings
  induction mappings with
  | nil => intro rec cv h; exact Or.inl h
  | cons p ps ih =>
    intro rec cv h
    simp only [applyMappings, List.foldl_cons] at h
    have step :
        ∀ rec2 : Row, cv ∈ applyMappings ps row rec2 →
          (cv ∈ rec2 ∨ ∃ q ∈ ps, q.2 = cv.1) →
          cv ∈ rec2 ∨ ∃ q ∈ p :: ps, q.2 = cv.1 := by
      intro rec2 _ hd
      rcases hd with h1 | ⟨q, hq, he⟩
      · exact Or.inl h1
      · exact Or.inr ⟨q, List.mem_cons_of_mem p hq, he⟩
    cases hg : rowGet row (pyLower p.1) with
    | none =>
      simp only [hg] at h
      exact step rec h (ih rec cv h)
    | some v =>
      simp only [hg] at h
      by_cases hne2 : nonEmptyValue v = true
      · rw [if_pos hne2] at h
        cases hf : floatCoerce v with
        | none =>
          rw [hf] at h
          exact step rec h (ih rec cv h)
        | some q =>
          rw [hf] at h
          rcases ih _ cv h with h1 | ⟨q2, hq2, he2⟩
          · rcases mem_assocSet _ _ _ cv h1 with rfl | h3
            · exact Or.inr ⟨p, List.mem_cons_self _ _, rfl⟩
            · exact Or.inl h3
          · exact Or.inr ⟨q2, List.mem_cons_of_mem p hq2, he2⟩
      · have hne3 : nonEmptyValue v = false := by simpa using hne2
        rw [hne3] at h
        simp only [Bool.false_eq_true, if_false] at h
        exact step rec h (ih rec cv h)

/-- One processing step preserves a date's non-empty record. -/
theorem getRecord_ne_nil_step (gp : String → Option String)
    (mappings : Mapping) (existing : ExistingDates) (m : RecordsMap)
    (row : Row) (d : String) (h : getRecord m d ≠ []) :
    getRecord (clarifiStep gp mappings existing m row) d ≠ [] := by
  cases hrd : rowResolvedDate gp row with
  | none =>
    simp only [clarifiStep, hrd]
    exact h
  | some date =>
    by_cases hex : hasExisting existing mappings date = true
    · simp only [clarifiStep, hrd, hex, if_true]
      exact h
    · have hex2 : hasExisting existing mappings date = false := by simpa using hex
      simp only [clarifiStep, hrd, hex2, Bool.false_eq_true, if_false]
      by_cases hd : date = d
      · subst hd
        rw [getRecord_assocSet_self]
        exact applyMappings_ne_nil row mappings _ h
      · rw [getRecord_assocSet_ne _ _ _ _ (fun hc => hd hc.symm)]
        exact h

/-- The whole row loop preserves a date's non-empty record. -/
theorem getRecord_ne_nil_fold (gp : String → Option String)
    (mappings : Mapping) (existing : ExistingDates) :
    ∀ (l : List Row) (m : RecordsMap) (d : String), getRecord m d ≠ [] →
      getRecord (l.foldl (clarifiStep gp mappings existing) m) d ≠ [] := by
  intro l
  induction l with
  | nil => intro m d h; exact h
  | cons row rest ih =>
    intro m d h
    exact ih _ d (getRecord_ne_nil_step gp mappings existing m row d h)

/-- A processed row that resolves a date, passes the guard and sets a
column leaves that date's record non-empty at the end of the loop. -/
theorem processRows_has_data (gp : String → Option String)
    (mappings : Mapping) (existing : ExistingDates) :
    ∀ (rows : List Row) (m : RecordsMap) (row : Row) (d : String),
      row ∈ rows → rowResolvedDate gp row = some d →
      hasExisting existing mappings d = false →
      rowSets mappings row = true →
      getRecord (rows.foldl (clarifiStep gp mappings existing) m) d ≠ [] := by
  intro rows
  induction rows with
  | nil =>
    intro m row d h
    simp at h
  | cons r rest ih =>
    intro m row d hmem hrd hex hsets
    rcases List.mem_cons.mp hmem with rfl | hmem2
    · rw [List.foldl_cons]
      apply getRecord_ne_nil_fold
      simp only [clarifiStep, hrd, hex, Bool.false_eq_true, if_false]
      rw [getRecord_assocSet_self]
      exact applyMappings_ne_nil_of_sets _ mappings _ hsets
    · exact ih _ row d hmem2 hrd hex hsets

/-- A date whose record is non-empty is a member of the map. -/
theorem getRecord_mem (m : RecordsMap) (d : String)
    (h : getRecord m d ≠ []) : (d, getRecord m d) ∈ m := by
  unfold getRecord at h ⊢
  cases hf : m.find? (fun p => p.1 == d) with
  | none =>
    rw [hf] at h
    simp at h
  | some pr =>
    have hmem := List.mem_of_find?_eq_some hf
    have hpred : pr.1 = d := by simpa using List.find?_some hf
    show (d, pr.2) ∈ m
    rw [← hpred]
    exact hmem

/-- Every data column in the processed map is a mapping target. -/
theorem processRows_keys (gp : String → Option String)
    (mappings : Mapping) (existing : ExistingDates) :
    ∀ (rows : List Row) (m : RecordsMap),
      (∀ pr ∈ m, ∀ cv ∈ pr.2, ∃ q ∈ mappings, q.2 = cv.1) →
      ∀ pr ∈ rows.foldl (clarifiStep gp mappings existing) m,
        ∀ cv ∈ pr.2, ∃ q ∈ mappings, q.2 = cv.1 := by
  intro rows
  induction rows with
  | nil => intro m hm; exact hm
  | cons row rest ih =>
    intro m hm
    apply ih
    intro pr hpr cv hcv
    revert hpr
    cases hrd : rowResolvedDate gp row with
    | none =>
      simp only [clarifiStep, hrd]
      intro hpr
      exact hm pr hpr cv hcv
    | some date =>
      by_cases hex : hasExisting existing mappings date = true
      · simp only [clarifiStep, hrd, hex, if_true]
        intro hpr
        exact hm pr hpr cv hcv
      · have hex2 : hasExisting existing mappings date = false := by simpa using hex
        simp only [clarifiStep, hrd, hex2, Bool.false_eq_true, if_false]
        intro hpr
        rcases mem_assocSet _ _ _ pr hpr with rfl | h2
        · rcases mem_applyMappings row mappings (getRecord m date) cv hcv with h3 | h4
          · by_cases hg : getRecord m date = []
            · rw [hg] at h3
              simp at h3
            · exact hm (date, getRecord m date) (getRecord_mem m date hg) cv h3
          · exact h4
        · exact hm pr h2 cv hcv

/-- When every contributing row's resolved date trips the guard, the
whole loop only ever stores empty records. -/
theorem processRows_all_nil (gp : String → Option String)
    (mappings : Mapping) (existing : ExistingDates) :
    ∀ (rows : List Row),
      (∀ row ∈ rows, ∀ d, rowResolvedDate gp row = some d →
        rowSets mappings row = true → hasExisting existing mappings d = true) →
      ∀ (m : RecordsMap), (∀ pr ∈ m, pr.2 = ([] : Row)) →
      ∀ pr ∈ rows.foldl (clarifiStep gp mappings existing) m, pr.2 = [] := by
  intro rows
  induction rows with
  | nil => intro hH m hm; exact hm
  | cons row rest ih =>
    intro hH m hm
    apply ih
    · intro r2 h2 d hrd hsets
      exact hH r2 (List.mem_cons_of_mem _ h2) d hrd hsets
    intro pr hpr
    revert hpr
    cases hrd : rowResolvedDate gp row with
    | none =>
      simp only [clarifiStep, hrd]
      intro hpr
      exact hm pr hpr
    | some date =>
      by_cases hex : hasExisting existing mappings date = true
      · simp only [clarifiStep, hrd, hex, if_true]
        intro hpr
        exact hm pr hpr
      · have hex2 : hasExisting existing mappings date = false := by simpa using hex
        have hsets : rowSets mappings row = false := by
          by_contra hc
          have hc2 : rowSets mappings row = true := by simpa using hc
          have := hH row (List.mem_cons_self _ _) date hrd hc2
          rw [this] at hex2
          cases hex2
        simp only [clarifiStep, hrd, hex2, Bool.false_eq_true, if_false]
        intro hpr
        rw [applyMappings_of_not_sets row mappings _ hsets] at hpr
        rcases mem_assocSet _ _ _ pr hpr with rfl | h2
        · by_cases hg : getRecord m date = []
          · exact hg
          · exact hm _ (getRecord_mem m date hg)
        · exact hm pr h2

/-- Claim C6: ingestion is idempotent against the store: a row whose
resolved date already has a stored value in any of the mapping's target
columns is skipped entirely, and a second run over the same rows, with
the store reporting every column/date the first run inserted (and
whatever it reported before), inserts zero records. -/
theorem C6_idempotent_rerun (gp : String → Option String) (mappings : Mapping)
    (e1 e2 : ExistingDates) (rows : List Row)
    (hmono : ∀ c d2, (lookupDates e1 c).contains d2 = true →
      (lookupDates e2 c).contains d2 = true)
    (hcov : ∀ pr ∈ recordsToInsert gp mappings e1 rows,
      ∀ cv ∈ pr.2, (lookupDates e2 cv.1).contains pr.1 = true) :
    recordsToInsert gp mappings e2 rows = [] ∧
    (∀ m row d, rowResolvedDate gp row = some d →
      hasExisting e2 mappings d = true →
      clarifiStep gp mappings e2 m row = m) := by
  constructor
  · have hH : ∀ row ∈ rows, ∀ d, rowResolvedDate gp row = some d →
        rowSets mappings row = true → hasExisting e2 mappings d = true := by
      intro row hrow d hrd hsets
      by_cases hex1 : hasExisting e1 mappings d = true
      · simp only [hasExisting, List.any_eq_true] at hex1 ⊢
        obtain ⟨p, hp, hc⟩ := hex1
        exact ⟨p, hp, hmono p.2 d hc⟩
      · have hex1f : hasExisting e1 mappings d = false := by simpa using hex1
        have hdata := processRows_has_data gp mappings e1 rows [] row d
          hrow hrd hex1f hsets
        have hmem := getRecord_mem _ d hdata
        have hins : (d, getRecord (rows.foldl (clarifiStep gp mappings e1) []) d)
            ∈ recordsToInsert gp mappings e1 rows := by
          simp only [recordsToInsert, processRows, List.mem_filter]
          refine ⟨hmem, ?_⟩
          simpa using hdata
        obtain ⟨cv, hcv⟩ := List.exists_mem_of_ne_nil _ hdata
        have hcol := hcov _ hins cv hcv
        have hkeys := processRows_keys gp mappings e1 rows [] (by simp) _ hmem cv hcv
        obtain ⟨q, hq, hq2⟩ := hkeys
        simp only [hasExisting, List.any_eq_true]
        refine ⟨q, hq, ?_⟩
        rw [hq2]
        exact hcol
    have hall := processRows_all_nil gp mappings e2 rows hH [] (by simp)
    simp only [recordsToInsert, processRows]
    rw [List.filter_eq_nil_iff]
    intro pr hpr
    simp [hall pr hpr]
  · intro m row d hrd hex
    simp [clarifiStep, hrd, hex]

/-- Witness for C6: one `Jan-24` row mapped to the `oil` column; with
the store reporting `2024-01-01` present for `oil` (as after a first
run), the re-run inserts nothing and that row's step is a no-op. -/
theorem C6_idempotent_rerun_witness :
    recordsToInsert (fun _ => none) [("px_last", "oil")]
      [("oil", ["2024-01-01"])]
      [[("date", Value.str "Jan-24"), ("px_last", Value.num 5)]] = [] ∧
    (∀ m row d, rowResolvedDate (fun _ => none) row = some d →
      hasExisting [("oil", ["2024-01-01"])] [("px_last", "oil")] d = true →
      clarifiStep (fun _ => none) [("px_last", "oil")]
        [("oil", ["2024-01-01"])] m row = m) :=
  C6_idempotent_rerun (fun _ => none) [("px_last", "oil")]
    [] [("oil", ["2024-01-01"])]
    [[("date", Value.str "Jan-24"), ("px_last", Value.num 5)]]
    (by
      intro c d2 hcontra
      simp [lookupDates] at hcontra)
    (by decide)

end DataBridge
